import Mathlib

/-!
Shallow embedding of `process_modules_readmes.py`, a tool that converts a
tree of module/example README files into documentation-site files.

Python strings are modelled as `List Char` (`Str`), Python exceptions as
the `Err` type, frontmatter values as `FMVal`, and the destination
directory as a map from file names to contents (`DestState`).  The
functions keep the source's names.  All recursion is structural (with a
fuel argument where the source scans by regex), so every definition
evaluates on concrete inputs.
-/

abbrev Str := List Char

/-- The Python exceptions the script can raise while resolving metadata:
`ValueError` (raised explicitly), `AttributeError` (calling `.group` on a
failed `re.search`), `IndexError` (out-of-range `parts[-3]`). -/
inductive Err where
  | valueError
  | attributeError
  | indexError
  deriving DecidableEq, Repr

/-- A frontmatter value: the script stores strings, booleans and `None`
in its metadata dictionary. -/
inductive FMVal where
  | vStr (s : Str)
  | vBool (b : Bool)
  | vNone
  deriving DecidableEq, Repr

open FMVal

/-- Python `str()` of a frontmatter value, as used when a value is spliced
into text. -/
def strOf : FMVal → Str
  | vStr s => s
  | vBool b => if b then "True".toList else "False".toList
  | vNone => "None".toList

/-- Python truthiness of a frontmatter value (`if module.description:`). -/
def fmTruthy : FMVal → Bool
  | vStr s => s ≠ []
  | vBool b => b
  | vNone => false

/-- Case-insensitive ASCII prefix test, modelling `re.IGNORECASE`
matching of a literal pattern. -/
def ciPrefixOf : Str → Str → Bool
  | [], _ => true
  | _ :: _, [] => false
  | a :: w, b :: s => (a.toLower == b.toLower) && ciPrefixOf w s

/-- Python `str.replace(old, new)` with an empty `old`: the replacement is
inserted before every character and at the end. -/
def replaceEmpty (r : Str) : Str → Str
  | [] => r
  | c :: s => r ++ c :: replaceEmpty r s

/-- Worker for `str.replace` with a non-empty needle: scan left to right,
replace each non-overlapping occurrence.  A positive `skip` means we are
still inside the span consumed by the last match. -/
def replaceGo (u r : Str) : Nat → Str → Str
  | skip + 1, _ :: s => replaceGo u r skip s
  | _, [] => []
  | 0, c :: s =>
    if u.isPrefixOf (c :: s) ∧ u ≠ [] then r ++ replaceGo u r (u.length - 1) s
    else c :: replaceGo u r 0 s

/-- Python `str.replace(old, new)` (all occurrences, left to right,
non-overlapping). -/
def pyReplace (u r s : Str) : Str :=
  if u = [] then replaceEmpty r s else replaceGo u r 0 s

/-- `re.sub(re.escape(w), repl, s, flags=re.IGNORECASE)` with a fixed
replacement: replace every case-insensitive occurrence of `w`. -/
def ciReplace (w r : Str) : Nat → Str → Str
  | skip + 1, _ :: s => ciReplace w r skip s
  | _, [] => []
  | 0, c :: s =>
    if ciPrefixOf w (c :: s) ∧ w ≠ [] then r ++ ciReplace w r (w.length - 1) s
    else c :: ciReplace w r 0 s

/-- The acronym list of the source (its spelling kept). -/
def KNOWN_ACRYONYMS : List Str :=
  ["alb".toList, "asg".toList, "gwlb".toList, "nlb".toList, "vpc".toList,
   "tgw".toList, "natgw".toList, "nat".toList, "lb".toList, "http".toList,
   "iam".toList]

/-- `capitalize_words_in_string`: for each word of the list, in order,
uppercase every case-insensitive occurrence of it in the string.  The
source's `re.sub` replaces each match by `match.group(0).upper()`; for
the ASCII acronyms of the list that equals `w.map Char.toUpper`. -/
def capitalize_words_in_string (word_list : List Str) (input_string : Str) : Str :=
  word_list.foldl (fun s w => ciReplace w (w.map Char.toUpper) 0 s) input_string

/-- Python `str.title()` (ASCII): a letter is uppercased when the previous
character is not a letter, lowercased otherwise. -/
def pyTitleGo : Bool → Str → Str
  | _, [] => []
  | prevAlpha, c :: s =>
    if c.isAlpha then
      (if prevAlpha then c.toLower else c.toUpper) :: pyTitleGo true s
    else c :: pyTitleGo false s

/-- Python `str.title()`. -/
def pyTitle (s : Str) : Str := pyTitleGo false s

/-- `synthesize_short_title`: `slug.replace("-", "_").split("_")` followed
by `" ".join(words)` maps every separator to a space; then `.title()`,
the acronym pass, and the case-insensitive `vmseries` → `VM-Series`
rename (`re.sub` with `re.IGNORECASE`). -/
def synthesize_short_title (slug : Str) : Str :=
  let words := slug.map (fun c => if c = '-' ∨ c = '_' then ' ' else c)
  let short_title := capitalize_words_in_string KNOWN_ACRYONYMS (pyTitle words)
  ciReplace "vmseries".toList "VM-Series".toList 0 short_title

/-- The alternation `(aws|azure|google|gcp)` tried at one position, in the
source's order. -/
def cloudAlt (s : Str) : Option Str :=
  if "aws".toList.isPrefixOf s then some "aws".toList
  else if "azure".toList.isPrefixOf s then some "azure".toList
  else if "google".toList.isPrefixOf s then some "google".toList
  else if "gcp".toList.isPrefixOf s then some "gcp".toList
  else none

/-- `re.search(r"-(aws|azure|google|gcp)", s)`: the leftmost position with
a `-` followed by one of the alternatives; returns the captured group. -/
def findCloudTok : Str → Option Str
  | [] => none
  | c :: s =>
    if c = '-' then
      match cloudAlt s with
      | some t => some t
      | none => findCloudTok s
    else findCloudTok s

/-- `extract_cloud_id`: search the string for `-(aws|azure|google|gcp)`;
`ValueError` when absent; the captured group has `google` replaced by
`gcp`. -/
def extract_cloud_id (string : Str) : Except Err Str :=
  match findCloudTok string with
  | some t => .ok (if t = "google".toList then "gcp".toList else t)
  | none => .error .valueError

/-- Lookup in the frontmatter dictionary (`key in frontmatter` /
`frontmatter[key]`). -/
def lookupFM (frontmatter : List (Str × FMVal)) (key : Str) : Option FMVal :=
  (frontmatter.find? (fun p => p.1 == key)).map (fun p => p.2)

/-- `get_meta`: the explicit value when the key is present, otherwise the
default.  A callable default is evaluated only in the absent case; its
possible exception is modelled by the default being an `Except` value. -/
def get_meta (frontmatter : List (Str × FMVal)) (key : Str)
    (default : Except Err FMVal) : Except Err FMVal :=
  match lookupFM frontmatter key with
  | some v => .ok v
  | none => default

/-- `fun c => c ≠ '\n'`: what `.` can match in an unflagged regex. -/
def notNL (c : Char) : Bool := c ≠ '\n'

/-- The title fallback `re.search(r"^# (.*)", body)`: without
`re.MULTILINE` the anchor `^` matches only at the start of the string, and
`.` stops at the first newline; `None` (then `AttributeError` on
`.group`) otherwise. -/
def titleFallback (body : Str) : Option Str :=
  match "# ".toList.isPrefixOf body with
  | true => some ((body.drop 2).takeWhile notNL)
  | false => none

/-- The lazily-evaluated default for the `title` key:
`lambda: re.search(r"^# (.*)", readme_contents).group(1)`. -/
def titleDefault (body : Str) : Except Err FMVal :=
  match titleFallback body with
  | some t => .ok (vStr t)
  | none => .error .attributeError

/-- `determine_module_type` on the path's components (`Path.parts`).
`parts[-3]` raises `IndexError` when the path has fewer than three
components; otherwise `examples` / `modules` at that position classify
the file, and any other value raises `ValueError`.  (The source also
receives the README contents but never uses them.) -/
def determine_module_type (parts : List Str) : Except Err Str :=
  if parts.length < 3 then .error .indexError
  else
    let p := parts.getD (parts.length - 3) []
    if p = "examples".toList then .ok "example".toList
    else if p = "modules".toList then .ok "module".toList
    else .error .valueError

/-- One input README file, after the external `frontmatter` library split
it into a metadata dictionary and a body: the path components
(`Path.parts`), the metadata, and the body text. -/
structure InputFile where
  parts : List Str
  frontmatter : List (Str × FMVal)
  body : Str
  deriving DecidableEq, Repr

/-- The `TFModule` named tuple of the source. -/
structure TFModule where
  readme_contents : Str
  title : FMVal
  slug : FMVal
  short_title : FMVal
  cloud_id : FMVal
  type : FMVal
  source_file : Str
  description : FMVal
  show_in_hub : FMVal
  deriving DecidableEq, Repr

/-- `read_and_parse_readme_file`: resolve each metadata key with
`get_meta`, in the source's order (slug, title, cloudId, short_title,
type, show_in_hub, description); the first raising fallback aborts.
`readme_file.parent.name` is `parts[-2]`; `readme_file.parts[0]` is the
first component (glob always yields paths with at least two
components). -/
def read_and_parse_readme_file (f : InputFile) : Except Err TFModule :=
  match get_meta f.frontmatter "slug".toList
      (.ok (vStr (f.parts.getD (f.parts.length - 2) []))) with
  | .error e => .error e
  | .ok slug =>
  match get_meta f.frontmatter "title".toList (titleDefault f.body) with
  | .error e => .error e
  | .ok title =>
  match get_meta f.frontmatter "cloudId".toList
      ((extract_cloud_id (f.parts.getD 0 [])).map vStr) with
  | .error e => .error e
  | .ok cloud_id =>
  match get_meta f.frontmatter "short_title".toList
      (.ok (vStr (synthesize_short_title (strOf slug)))) with
  | .error e => .error e
  | .ok short_title =>
  match get_meta f.frontmatter "type".toList
      ((determine_module_type f.parts).map vStr) with
  | .error e => .error e
  | .ok module_type =>
  match get_meta f.frontmatter "show_in_hub".toList (.ok (vBool true)) with
  | .error e => .error e
  | .ok show_in_hub =>
  match get_meta f.frontmatter "description".toList (.ok vNone) with
  | .error e => .error e
  | .ok description =>
    .ok { readme_contents := f.body
          title := title
          slug := slug
          short_title := short_title
          cloud_id := cloud_id
          type := module_type
          source_file := List.intercalate "/".toList f.parts
          description := description
          show_in_hub := show_in_hub }

/-- `s.replace("_", "\\_")` applied to the capture of a `<pre>` block. -/
def escapeU (s : Str) : Str :=
  s.foldr (fun c acc => if c = '_' then '\\' :: '_' :: acc else c :: acc) []

/-- Split at the first occurrence of a (non-empty) pattern: the text
before the match and the text after it, or `none` when the pattern does
not occur. -/
def splitAtSub (pat : Str) : Str → Option (Str × Str)
  | [] => none
  | c :: s =>
    if pat.isPrefixOf (c :: s) then some ([], s.drop (pat.length - 1))
    else
      match splitAtSub pat s with
      | some (b, a) => some (c :: b, a)
      | none => none

/-- Fueled worker for `re.sub(r"<pre>(.*?)</pre>", ..., s, flags=DOTALL)`:
each match runs from a `<pre>` to the first following `</pre>` and has the
underscores of its capture escaped; when a `<pre>` has no `</pre>` after
it, no position can match any more and the rest stays unchanged. -/
def escPreGo : Nat → Str → Str
  | 0, s => s
  | fuel + 1, s =>
    match splitAtSub "<pre>".toList s with
    | none => s
    | some (before, afterOpen) =>
      match splitAtSub "</pre>".toList afterOpen with
      | none => s
      | some (inner, afterClose) =>
        before ++ "<pre>".toList ++ escapeU inner ++ "</pre>".toList ++
          escPreGo fuel afterClose

/-- `escape_underscores_in_pre_tags` (the fuel bounds the number of
matches, which never exceeds the length of the string). -/
def escape_underscores_in_pre_tags (input_string : Str) : Str :=
  escPreGo input_string.length input_string

/-- `sanitize_readme_contents`: self-close `<br>` and `<hr>`, then escape
underscores inside `<pre>` blocks. -/
def sanitize_readme_contents (readme_contents : Str) : Str :=
  escape_underscores_in_pre_tags
    (pyReplace "<hr>".toList "<hr />".toList
      (pyReplace "<br>".toList "<br />".toList readme_contents))

/-- The lazy inner part `(.*?)\)` of the image pattern: capture non-newline
characters up to the first `)`. -/
def grabUrl : Str → Option (Str × Str)
  | [] => none
  | c :: s =>
    if c = ')' then some ([], s)
    else if c = '\n' then none
    else
      match grabUrl s with
      | some (u, r) => some (c :: u, r)
      | none => none

/-- After a literal `![`: the lazy run `.*?` up to the first `](`, then
the captured URL up to the first `)`; on an inner failure the lazy run is
extended (regex backtracking), and a newline stops everything. -/
def afterBang : Str → Option (Str × Str)
  | [] => none
  | [_] => none
  | c1 :: c2 :: s =>
    if c1 = ']' ∧ c2 = '(' then
      match grabUrl s with
      | some (u, r) => some (u, r)
      | none => if c1 = '\n' then none else afterBang (c2 :: s)
    else if c1 = '\n' then none else afterBang (c2 :: s)

/-- Fueled scan of `re.finditer(r"!\[.*?\]\((.*?)\)", s)`: the list of
captured URLs, scanning left to right, continuing after each match. -/
def findImageUrlsGo : Nat → Str → List Str
  | 0, _ => []
  | _ + 1, [] => []
  | fuel + 1, '!' :: '[' :: s =>
    (match afterBang s with
     | some (u, r) => u :: findImageUrlsGo fuel r
     | none => findImageUrlsGo fuel ('[' :: s))
  | fuel + 1, _ :: s => findImageUrlsGo fuel s

/-- All URLs captured by the markdown image pattern. -/
def findImageUrls (s : Str) : List Str := findImageUrlsGo s.length s

/-- `url.split("/")[-1]`: the part after the last slash. -/
def lastSeg (u : Str) : Str :=
  u.foldl (fun acc c => if c = '/' then [] else acc ++ [c]) []

/-- `replace_image_urls`: `finditer` runs over the original string; each
captured URL is then globally replaced (`str.replace`) by its derived
local name, the last path segment with `.png` appended. -/
def replace_image_urls (readme_contents : Str) : Str :=
  (findImageUrls readme_contents).foldl
    (fun body url => pyReplace url (lastSeg url ++ ".png".toList) body)
    readme_contents

/-- `download_images`: one entry per image reference, keyed by the derived
name, with the fetched contents; `fetch` stands for
`image_url_to_base64` (a blocking network call).  Python's dict keeps the
last value per key; writing the list in order leaves the same final file
contents. -/
def download_images (fetch : Str → Str) (m : TFModule) : List (Str × Str) :=
  (findImageUrls m.readme_contents).map (fun url => (lastSeg url, fetch url))

/-- `set_new_frontmatter`: the body prefixed with the rewritten metadata
header.  The exact YAML rendering comes from the external `frontmatter`
library; it is modelled as a fixed deterministic rendering of exactly the
fields the source sets (id, title, sidebar_label, the description when
truthy, hide_title, pagination, the keyword list ending with the cloud
id). -/
def set_new_frontmatter (m : TFModule) : Str :=
  "---\n".toList ++
  "id: ".toList ++ strOf m.slug ++ "\n".toList ++
  "title: ".toList ++ strOf m.title ++ "\n".toList ++
  "sidebar_label: ".toList ++ strOf m.short_title ++ "\n".toList ++
  (if fmTruthy m.description then
    "description: ".toList ++ strOf m.description ++ "\n".toList
   else []) ++
  "hide_title: true\npagination_next: null\npagination_prev: null\n".toList ++
  "keywords: [pan-os, panos, firewall, configuration, terraform, vmseries, vm-series, ".toList ++
  strOf m.cloud_id ++ "]\n---\n".toList ++
  m.readme_contents

/-- The destination directory: file name to contents. -/
def DestState := Str → Option Str

/-- `path.write_text` / `save_image`: (over)write one file. -/
def writeF (name contents : Str) (d : DestState) : DestState :=
  fun n => if n = name then some contents else d n

/-- Does a name match one of the glob patterns `*.md`, `*.mdx`, `*.png`
used by `delete_markdown_files`? -/
def clearedExt (n : Str) : Bool :=
  ".md".toList.isSuffixOf n || ".mdx".toList.isSuffixOf n ||
    ".png".toList.isSuffixOf n

/-- `delete_markdown_files`: remove every `*.md`, `*.mdx` and `*.png`
file from the directory. -/
def delete_markdown_files (d : DestState) : DestState :=
  fun n => if clearedExt n then none else d n

/-- A filesystem operation `main` performs on the destination. -/
inductive FsOp where
  | mkdirDest
  | clearDest
  | write (name : Str) (contents : Str)
  deriving Repr

/-- Effect of one operation on the destination (creating the directory
does not change its files). -/
def applyOp (d : DestState) : FsOp → DestState
  | .mkdirDest => d
  | .clearDest => delete_markdown_files d
  | .write n c => writeF n c d

/-- Effect of a sequence of operations. -/
def applyOps (ops : List FsOp) (d : DestState) : DestState :=
  ops.foldl applyOp d

/-- `OUTPUT_EXTENSION = "md"`. -/
def OUTPUT_EXTENSION : Str := "md".toList

/-- The per-module pipeline of `main`'s loop: destination name
`f"{module.slug}.{OUTPUT_EXTENSION}"`, and the body after
`set_new_frontmatter`, `replace_image_urls`, `sanitize_readme_contents`
(in the source's order). -/
def moduleOutput (m : TFModule) : Str × Str :=
  (strOf m.slug ++ ('.' :: OUTPUT_EXTENSION),
   sanitize_readme_contents (replace_image_urls (set_new_frontmatter m)))

/-- The filter stage of `main`: the optional `--type` filter
(`module.type == module_type`), then the `show_in_hub is False` skip. -/
def keptModules (tf_modules : List TFModule) (module_type : Option Str) :
    List TFModule :=
  (match module_type with
   | some t => tf_modules.filter (fun m : TFModule => m.type = vStr t)
   | none => tf_modules).filter
    (fun m : TFModule => m.show_in_hub ≠ vBool false)

/-- The write operations of `main`'s output stage: every markdown file
(`<slug>.md`), then every fetched image (`<name>.png`). -/
def mainWrites (fetch : Str → Str) (kept : List TFModule) : List FsOp :=
  (kept.map moduleOutput).map (fun p : Str × Str => FsOp.write p.1 p.2) ++
  ((kept.map (download_images fetch)).flatten).map
    (fun p : Str × Str => FsOp.write (p.1 ++ ".png".toList) p.2)

/-- `main` as the ordered list of filesystem operations it performs on
the destination directory, or the exception that aborts it first.  All
input files are parsed (`get_module_readme_files`), then filtered; only
then the directory is created, cleared, the markdown files written, and
the images written under `name + ".png"`. -/
def mainOps (fetch : Str → Str) (files : List InputFile)
    (module_type : Option Str) : List FsOp × Option Err :=
  match files.mapM read_and_parse_readme_file with
  | .error e => ([], some e)
  | .ok tf_modules =>
    (FsOp.mkdirDest :: FsOp.clearDest ::
      mainWrites fetch (keptModules tf_modules module_type), none)

/-- The effect of one invocation of `main` on the destination
directory. -/
def mainRun (fetch : Str → Str) (files : List InputFile)
    (module_type : Option Str) (dest : DestState) : DestState :=
  applyOps (mainOps fetch files module_type).1 dest

/-- Modelled from the spec: "title ← first level-one heading line in the
body" — the first line anywhere in the body starting with `# ` (what C1
asserts the resolution computes). -/
def specFirstH1 (body : Str) : Option Str :=
  (body.splitOn '\n').findSome?
    (fun l => if "# ".toList.isPrefixOf l then some (l.drop 2) else none)

/-- Scanner for `specCloudAnywhere`: the first position anywhere in the
string where one of the four provider tokens occurs, with no required
preceding hyphen. -/
def specFindTok : Str → Option Str
  | [] => none
  | c :: s =>
    if "aws".toList.isPrefixOf (c :: s) then some "aws".toList
    else if "azure".toList.isPrefixOf (c :: s) then some "azure".toList
    else if "google".toList.isPrefixOf (c :: s) then some "google".toList
    else if "gcp".toList.isPrefixOf (c :: s) then some "gcp".toList
    else specFindTok s

/-- Modelled from the spec: "cloud_id ← pattern-matched cloud provider
token found in the path" — a provider token occurring anywhere in the
slash-joined path, `google` normalised to `gcp` (what C3 asserts the
resolution computes). -/
def specCloudAnywhere (parts : List Str) : Option Str :=
  (specFindTok (List.intercalate "/".toList parts)).map
    (fun t => if t = "google".toList then "gcp".toList else t)

/-- Modelled from the claim's words for C2: split the slug on separators,
title-case each word, uppercase exactly the whole words that match the
acronym list, then the `vmseries` rename. -/
def specShortTitleWholeWords (slug : Str) : Str :=
  let words := ((slug.map (fun c => if c = '-' then '_' else c)).splitOn '_')
  let cap := words.map (fun w =>
    if (w.map Char.toLower) ∈ KNOWN_ACRYONYMS then w.map Char.toUpper
    else pyTitle w)
  ciReplace "vmseries".toList "VM-Series".toList 0 (List.intercalate [' '] cap)

theorem isPrefixOf_append_self (l t : Str) : l.isPrefixOf (l ++ t) = true := by
  induction l with
  | nil => simp [List.isPrefixOf]
  | cons c l ih => simp [List.isPrefixOf, ih]

theorem isSuffixOf_append_self (s x : Str) : s.isSuffixOf (x ++ s) = true := by
  simp [List.isSuffixOf, List.reverse_append, isPrefixOf_append_self]

theorem takeWhile_to_newline (t r : Str) (ht : ∀ c ∈ t, c ≠ '\n') :
    (t ++ '\n' :: r).takeWhile notNL = t := by
  induction t with
  | nil => simp [List.takeWhile_cons, notNL]
  | cons c t ih =>
    have hc : notNL c = true := by simp [notNL, ht c (by simp)]
    simp [List.takeWhile_cons, hc, ih (fun c h => ht c (by simp [h]))]

theorem determine_module_type_append (a : List Str) (w x r : Str) :
    determine_module_type (a ++ [w, x, r]) =
      if w = "examples".toList then .ok "example".toList
      else if w = "modules".toList then .ok "module".toList
      else .error .valueError := by
  have h1 : (a ++ [w, x, r]).length = a.length + 3 := by simp
  have h2 : (a ++ [w, x, r]).getD a.length [] = w := by
    have h3 : (a ++ [w, x, r])[a.length]? = [w, x, r][a.length - a.length]? :=
      List.getElem?_append_right (Nat.le_refl a.length)
    simp [List.getD_eq_getElem?_getD, h3]
  simp only [determine_module_type, h1]
  rw [if_neg (by omega)]
  simp only [Nat.add_sub_cancel, h2]

/-- C1 is false as stated: a body whose first level-one heading is not its
very first line has a first heading in the spec's sense (`specFirstH1`),
but the source's anchored `re.search(r"^# (.*)", body)` finds nothing and
the title resolution raises `AttributeError` instead of returning that
heading. -/
theorem title_not_found_for_later_heading :
    specFirstH1 "Intro\n# Real Title".toList = some "Real Title".toList
    ∧ titleFallback "Intro\n# Real Title".toList = none
    ∧ read_and_parse_readme_file
        ⟨["repo".toList, "modules".toList, "m1".toList, "README.md".toList], [],
         "Intro\n# Real Title".toList⟩ = .error .attributeError :=
  ⟨rfl, rfl, rfl⟩

/-- C1 (amended): for a README without an explicit `title` key, the
resolved title is the text after `# ` on the first line when the body
starts with `# ` (up to the first newline); when the body does not start
with `# `, title resolution raises `AttributeError`, even if a level-one
heading occurs later in the body. -/
theorem title_fallback_first_line_only (fm : List (Str × FMVal)) (t r body : Str)
    (hfm : lookupFM fm "title".toList = none)
    (ht : ∀ c ∈ t, c ≠ '\n')
    (hb : "# ".toList.isPrefixOf body = false) :
    get_meta fm "title".toList
      (titleDefault ('#' :: ' ' :: (t ++ '\n' :: r))) = .ok (vStr t)
    ∧ get_meta fm "title".toList (titleDefault body) = .error .attributeError := by
  constructor
  · have hpre : "# ".toList.isPrefixOf ('#' :: ' ' :: (t ++ '\n' :: r)) = true :=
      isPrefixOf_append_self "# ".toList (t ++ '\n' :: r)
    have h1 : titleFallback ('#' :: ' ' :: (t ++ '\n' :: r)) = some t := by
      simp only [titleFallback, hpre, List.drop_succ_cons, List.drop_zero]
      rw [takeWhile_to_newline t r ht]
    simp only [get_meta, hfm, titleDefault, h1]
  · have h1 : titleFallback body = none := by
      simp only [titleFallback, hb]
    simp only [get_meta, hfm, titleDefault, h1]

theorem title_fallback_first_line_only_witness :
    get_meta [("slug".toList, vStr "s".toList)] "title".toList
      (titleDefault ('#' :: ' ' :: ("Real".toList ++ '\n' :: "rest".toList)))
      = .ok (vStr "Real".toList)
    ∧ get_meta [("slug".toList, vStr "s".toList)] "title".toList
      (titleDefault "Intro".toList) = .error .attributeError :=
  title_fallback_first_line_only [("slug".toList, vStr "s".toList)]
    "Real".toList "rest".toList "Intro".toList rfl (by decide) (by decide)

/-- C2 is false as stated: the acronym pass uppercases case-insensitive
substring occurrences, not only whole words.  On the slug `albatross`
the source produces `ALBatross` (the substring `alb` is uppercased inside
the word), while the claim's whole-word reading produces `Albatross`. -/
theorem short_title_substring_uppercasing :
    synthesize_short_title "albatross".toList = "ALBatross".toList
    ∧ specShortTitleWholeWords "albatross".toList = "Albatross".toList
    ∧ synthesize_short_title "albatross".toList
        ≠ specShortTitleWholeWords "albatross".toList :=
  ⟨rfl, rfl, by decide⟩

/-- C2 (amended): `synthesize_short_title` splits the slug on `-`/`_`,
title-cases the words, then uppercases every case-insensitive substring
occurrence of each known acronym (not only whole words), and renames
`vmseries` to `VM-Series`; in particular
`synthesize_short_title("alb-outbound-vpc") = "ALB Outbound VPC"`. -/
theorem synthesize_short_title_spec :
    synthesize_short_title "alb-outbound-vpc".toList = "ALB Outbound VPC".toList
    ∧ synthesize_short_title "vmseries_vpc".toList = "VM-Series VPC".toList
    ∧ synthesize_short_title "albatross".toList = "ALBatross".toList :=
  ⟨rfl, rfl, rfl⟩

/-- C3 is false as stated: the source searches only the first path
component (`readme_file.parts[0]`) and requires the token to be preceded
by a hyphen.  For the path `repo/chain-aws/README.md` the spec's
anywhere-in-the-path reading finds `aws`, but the source raises
`ValueError` (halting the run) because the first component `repo` has no
match. -/
theorem cloud_id_first_component_only :
    specCloudAnywhere ["repo".toList, "chain-aws".toList, "README.md".toList]
      = some "aws".toList
    ∧ extract_cloud_id "repo".toList = .error .valueError
    ∧ read_and_parse_readme_file
        ⟨["repo".toList, "chain-aws".toList, "README.md".toList],
         [("title".toList, vStr "T".toList)], []⟩ = .error .valueError :=
  ⟨rfl, rfl, rfl⟩

/-- C3 (amended): without an explicit `cloudId`, the cloud id is matched
against the first path component only, and the token must be preceded by
`-`; the alias `google` is normalised to `gcp`; a first component with no
such match raises `ValueError`, which propagates out of parsing and halts
the run. -/
theorem extract_cloud_id_spec :
    extract_cloud_id "terraform-aws-vmseries-modules".toList = .ok "aws".toList
    ∧ extract_cloud_id "custom-google-repo".toList = .ok "gcp".toList
    ∧ extract_cloud_id "x-azure".toList = .ok "azure".toList
    ∧ extract_cloud_id "awsrepo".toList = .error .valueError
    ∧ (∃ m : TFModule,
        read_and_parse_readme_file
          ⟨["repo-gcp".toList, "modules".toList, "m".toList, "README.md".toList],
           [("title".toList, vStr "T".toList),
            ("short_title".toList, vStr "S".toList)], []⟩ = .ok m
        ∧ m.cloud_id = vStr "gcp".toList) :=
  ⟨rfl, rfl, rfl, rfl, ⟨_, rfl, rfl⟩⟩

/-- C4 is false as stated: a path that is neither `.../modules/x/README.md`
nor `.../examples/x/README.md` but has fewer than three components makes
`parts[-3]` raise `IndexError`, not the classification `ValueError` the
claim (and C3's terminology) designates. -/
theorem module_type_short_path_index_error :
    determine_module_type ["x".toList, "README.md".toList] = .error .indexError
    ∧ Err.indexError ≠ Err.valueError :=
  ⟨rfl, by decide⟩

/-- C4 (amended): for a path with at least three components, the
third-from-last component decides the type: `modules` gives `module`,
`examples` gives `example`, anything else raises the classification
`ValueError`; a path with fewer than three components raises `IndexError`
instead. -/
theorem determine_module_type_by_parts (a : List Str) (x y : Str)
    (hy1 : y ≠ "modules".toList) (hy2 : y ≠ "examples".toList) :
    determine_module_type (a ++ ["modules".toList, x, "README.md".toList])
      = .ok "module".toList
    ∧ determine_module_type (a ++ ["examples".toList, x, "README.md".toList])
      = .ok "example".toList
    ∧ determine_module_type (a ++ [y, x, "README.md".toList])
      = .error .valueError
    ∧ ∀ parts : List Str, parts.length < 3 →
        determine_module_type parts = .error .indexError := by
  refine ⟨?_, ?_, ?_, ?_⟩
  · rw [determine_module_type_append,
      if_neg (show ¬("modules".toList = "examples".toList) by decide),
      if_pos rfl]
  · rw [determine_module_type_append, if_pos rfl]
  · rw [determine_module_type_append, if_neg hy2, if_neg hy1]
  · intro parts h
    simp [determine_module_type, h]

theorem determine_module_type_by_parts_witness :
    determine_module_type
      (["repo".toList] ++ ["modules".toList, "m".toList, "README.md".toList])
      = .ok "module".toList
    ∧ determine_module_type
      (["repo".toList] ++ ["other".toList, "m".toList, "README.md".toList])
      = .error .valueError :=
  ⟨(determine_module_type_by_parts ["repo".toList] "m".toList "other".toList
      (by decide) (by decide)).1,
   (determine_module_type_by_parts ["repo".toList] "m".toList "other".toList
      (by decide) (by decide)).2.2.1⟩

theorem clearedExt_append_md (s : Str) : clearedExt (s ++ ".md".toList) = true := by
  simp [clearedExt, isSuffixOf_append_self]

theorem clearedExt_append_png (s : Str) : clearedExt (s ++ ".png".toList) = true := by
  simp [clearedExt, isSuffixOf_append_self]

theorem delete_idem (d : DestState) :
    delete_markdown_files (delete_markdown_files d) = delete_markdown_files d := by
  funext n
  by_cases h : clearedExt n = true <;> simp [delete_markdown_files, h]

theorem delete_write (n c : Str) (d : DestState) (h : clearedExt n = true) :
    delete_markdown_files (writeF n c d) = delete_markdown_files d := by
  funext m
  by_cases hm : clearedExt m = true
  · simp [delete_markdown_files, hm]
  · have hmn : m ≠ n := fun e => hm (e ▸ h)
    simp [delete_markdown_files, writeF, hm, hmn]

theorem delete_applyWrites (ws : List FsOp)
    (hw : ∀ op ∈ ws, ∃ n c, op = FsOp.write n c ∧ clearedExt n = true) :
    ∀ d : DestState,
      delete_markdown_files (applyOps ws d) = delete_markdown_files d := by
  induction ws with
  | nil => intro d; rfl
  | cons op ws ih =>
    intro d
    obtain ⟨n, c, hop, hn⟩ := hw op (List.mem_cons_self op ws)
    subst hop
    have h1 : applyOps (FsOp.write n c :: ws) d = applyOps ws (writeF n c d) := rfl
    rw [h1, ih (fun o ho => hw o (by simp [ho])) (writeF n c d),
      delete_write n c d hn]

theorem mainWrites_cleared (fetch : Str → Str) (kept : List TFModule) :
    ∀ op ∈ mainWrites fetch kept,
      ∃ n c, op = FsOp.write n c ∧ clearedExt n = true := by
  intro op hop
  rcases List.mem_append.1 hop with h | h
  · rcases List.mem_map.1 h with ⟨p, hp, rfl⟩
    rcases List.mem_map.1 hp with ⟨m, _, rfl⟩
    exact ⟨(moduleOutput m).1, (moduleOutput m).2, rfl,
      clearedExt_append_md (strOf m.slug)⟩
  · rcases List.mem_map.1 h with ⟨p, _, rfl⟩
    exact ⟨p.1 ++ ".png".toList, p.2, rfl, clearedExt_append_png p.1⟩

/-- C5: `main` is idempotent on the destination.  One run parses and
transforms the inputs (unchanged between runs, with fixed image-fetch
responses `fetch`), then clears `*.md`/`*.mdx`/`*.png` and writes files
whose names all carry those extensions, so a second identical run clears
exactly what the first wrote and rewrites the same contents: the
destination state after two runs equals the state after one. -/
theorem mainRun_idem (fetch : Str → Str) (files : List InputFile)
    (module_type : Option Str) (d : DestState) :
    mainRun fetch files module_type (mainRun fetch files module_type d)
      = mainRun fetch files module_type d := by
  unfold mainRun mainOps
  cases hp : files.mapM read_and_parse_readme_file with
  | error e => rfl
  | ok tf_modules =>
    simp only
    have hW := mainWrites_cleared fetch (keptModules tf_modules module_type)
    show applyOps (mainWrites fetch (keptModules tf_modules module_type))
        (delete_markdown_files
          (applyOps (mainWrites fetch (keptModules tf_modules module_type))
            (delete_markdown_files d)))
      = applyOps (mainWrites fetch (keptModules tf_modules module_type))
          (delete_markdown_files d)
    rw [delete_applyWrites _ hW (delete_markdown_files d), delete_idem]

/-- C9: when parsing any input file raises (unresolvable cloud id or
type, missing title heading), `main` performs no filesystem operation at
all: parsing all the files precedes the `mkdir`, the clearing of the
destination and every write, so the destination is unchanged. -/
theorem main_no_ops_on_parse_error (fetch : Str → Str) (files : List InputFile)
    (module_type : Option Str) (e : Err)
    (h : files.mapM read_and_parse_readme_file = .error e) :
    mainOps fetch files module_type = ([], some e)
    ∧ ∀ d : DestState, mainRun fetch files module_type d = d := by
  have h1 : mainOps fetch files module_type = ([], some e) := by
    simp only [mainOps, h]
  exact ⟨h1, fun d => by simp only [mainRun, h1]; rfl⟩

theorem main_no_ops_on_parse_error_witness :
    mainOps (fun _ => []) [⟨["x".toList, "README.md".toList], [], "# T".toList⟩]
      none = ([], some .valueError)
    ∧ mainRun (fun _ => [])
        [⟨["x".toList, "README.md".toList], [], "# T".toList⟩] none
        (fun _ => some "keep".toList) = (fun _ => some "keep".toList) :=
  ⟨(main_no_ops_on_parse_error (fun _ => [])
      [⟨["x".toList, "README.md".toList], [], "# T".toList⟩] none .valueError rfl).1,
   (main_no_ops_on_parse_error (fun _ => [])
      [⟨["x".toList, "README.md".toList], [], "# T".toList⟩] none .valueError rfl).2
     (fun _ => some "keep".toList)⟩

/-- C8: fallbacks are lazy and consulted only on absence.  Whenever a key
is present in the frontmatter, `get_meta` returns its value for every
default, even an erroring one; consequently a file whose frontmatter
carries explicit `title`, `cloudId` and `type` parses successfully with
exactly those values, whatever its body (no heading needed) and whatever
its path (no cloud token needed). -/
theorem get_meta_lazy_fallback
    (fm : List (Str × FMVal)) (k : Str) (d : Except Err FMVal) (v : FMVal)
    (f : InputFile) (tv cv yv : FMVal)
    (hk : lookupFM fm k = some v)
    (htitle : lookupFM f.frontmatter "title".toList = some tv)
    (hcloud : lookupFM f.frontmatter "cloudId".toList = some cv)
    (htype : lookupFM f.frontmatter "type".toList = some yv) :
    get_meta fm k d = .ok v
    ∧ ∃ m : TFModule, read_and_parse_readme_file f = .ok m
        ∧ m.title = tv ∧ m.cloud_id = cv ∧ m.type = yv := by
  refine ⟨by simp only [get_meta, hk], ?_⟩
  rcases hs : lookupFM f.frontmatter "slug".toList with _ | sv <;>
    rcases hst : lookupFM f.frontmatter "short_title".toList with _ | stv <;>
    rcases hsh : lookupFM f.frontmatter "show_in_hub".toList with _ | shv <;>
    rcases hd : lookupFM f.frontmatter "description".toList with _ | dv <;>
    (simp only [read_and_parse_readme_file, get_meta, hs, hst, hsh, hd,
        htitle, hcloud, htype];
     exact ⟨_, rfl, rfl, rfl, rfl⟩)

theorem get_meta_lazy_fallback_witness :
    get_meta [("title".toList, vStr "T".toList),
      ("cloudId".toList, vStr "aws".toList),
      ("type".toList, vStr "module".toList)] "title".toList
      (.error .attributeError) = .ok (vStr "T".toList)
    ∧ ∃ m : TFModule,
        read_and_parse_readme_file
          ⟨["nocloud".toList, "README.md".toList],
           [("title".toList, vStr "T".toList),
            ("cloudId".toList, vStr "aws".toList),
            ("type".toList, vStr "module".toList)],
           "no heading here".toList⟩ = .ok m
        ∧ m.title = vStr "T".toList ∧ m.cloud_id = vStr "aws".toList
        ∧ m.type = vStr "module".toList :=
  get_meta_lazy_fallback
    [("title".toList, vStr "T".toList),
     ("cloudId".toList, vStr "aws".toList),
     ("type".toList, vStr "module".toList)]
    "title".toList (.error .attributeError) (vStr "T".toList)
    ⟨["nocloud".toList, "README.md".toList],
     [("title".toList, vStr "T".toList),
      ("cloudId".toList, vStr "aws".toList),
      ("type".toList, vStr "module".toList)],
     "no heading here".toList⟩
    (vStr "T".toList) (vStr "aws".toList) (vStr "module".toList)
    rfl rfl rfl rfl

/-- C6: for the image reference `![x](http://h/a/b.png)` the body is
rewritten to point at `b.png.png` (the last path segment of the URL with
`.png` appended); the download stage keys the fetched bytes by the
derived name `b.png`, and the output stage writes the image under that
same name plus `.png`, i.e. `b.png.png` — matching the rewritten
reference. -/
theorem image_localization_naming :
    replace_image_urls "![x](http://h/a/b.png)".toList = "![x](b.png.png)".toList
    ∧ (findImageUrls "![x](http://h/a/b.png)".toList).map
        (fun u => lastSeg u ++ ".png".toList) = ["b.png.png".toList]
    ∧ (download_images (fun _ => "IMG".toList)
        ⟨"![x](http://h/a/b.png)".toList, vStr "T".toList, vStr "s".toList,
         vStr "S".toList, vStr "aws".toList, vStr "module".toList, [],
         vNone, vBool true⟩).map
        (fun p : Str × Str => p.1 ++ ".png".toList) = ["b.png.png".toList] :=
  ⟨rfl, rfl, rfl⟩

/-- C7: `sanitize_readme_contents` self-closes the void tags `<br>` and
`<hr>` (to `<br />`, `<hr />`) and escapes every underscore inside each
`<pre>...</pre>` block as `\_`, while underscores outside the blocks are
left unchanged. -/
theorem sanitize_examples :
    sanitize_readme_contents "<pre>a_b</pre>".toList = "<pre>a\\_b</pre>".toList
    ∧ sanitize_readme_contents "<br>".toList = "<br />".toList
    ∧ sanitize_readme_contents "a<hr>b".toList = "a<hr />b".toList
    ∧ sanitize_readme_contents "x_y<pre>a_b</pre>z_w<pre>c_d</pre>e_f".toList
        = "x_y<pre>a\\_b</pre>z_w<pre>c\\_d</pre>e_f".toList :=
  ⟨rfl, rfl, rfl, rfl⟩

theorem replaceGo_skip (u r : Str) (t : Str) :
    ∀ s : Str, replaceGo u r t.length (t ++ s) = replaceGo u r 0 s := by
  induction t with
  | nil => intro s; rfl
  | cons c t ih =>
    intro s
    have h1 : replaceGo u r (c :: t).length ((c :: t) ++ s)
        = replaceGo u r t.length (t ++ s) := rfl
    rw [h1, ih s]

theorem replaceGo_no_occ_zero (u r : Str) :
    ∀ s : Str, (∀ i : Nat, u.isPrefixOf (s.drop i) = false) →
      replaceGo u r 0 s = s := by
  intro s
  induction s with
  | nil => intro _; rfl
  | cons c s ih =>
    intro h
    have h0 := h 0
    rw [List.drop_zero] at h0
    have h1 : replaceGo u r 0 (c :: s)
        = if u.isPrefixOf (c :: s) ∧ u ≠ [] then
            r ++ replaceGo u r (u.length - 1) s
          else c :: replaceGo u r 0 s := rfl
    rw [h1, if_neg (by simp [h0])]
    rw [ih (fun i => by
      have h2 := h (i + 1)
      rwa [List.drop_succ_cons] at h2)]

theorem replaceGo_leftmost (u r : Str) (hu : u ≠ []) :
    ∀ (x y : Str),
      (∀ i : Nat, i < x.length →
        u.isPrefixOf ((x ++ (u ++ y)).drop i) = false) →
      replaceGo u r 0 (x ++ (u ++ y)) = x ++ r ++ replaceGo u r 0 y := by
  intro x
  induction x with
  | nil =>
    intro y _
    obtain ⟨a, u', rfl⟩ : ∃ a u', u = a :: u' := by
      cases u with
      | nil => exact absurd rfl hu
      | cons a u' => exact ⟨a, u', rfl⟩
    have h1 : replaceGo (a :: u') r 0 (([] : Str) ++ ((a :: u') ++ y))
        = if (a :: u').isPrefixOf (a :: (u' ++ y)) ∧ (a :: u') ≠ ([] : Str) then
            r ++ replaceGo (a :: u') r ((a :: u').length - 1) (u' ++ y)
          else a :: replaceGo (a :: u') r 0 (u' ++ y) := rfl
    rw [h1, if_pos ⟨isPrefixOf_append_self (a :: u') y, by simp⟩]
    have h2 : (a :: u').length - 1 = u'.length := by simp
    rw [h2, replaceGo_skip (a :: u') r u' y]
    simp
  | cons c x ih =>
    intro y h
    have h0 := h 0 (by simp)
    rw [List.drop_zero, List.cons_append] at h0
    have h1 : replaceGo u r 0 ((c :: x) ++ (u ++ y))
        = if u.isPrefixOf (c :: (x ++ (u ++ y))) ∧ u ≠ [] then
            r ++ replaceGo u r (u.length - 1) (x ++ (u ++ y))
          else c :: replaceGo u r 0 (x ++ (u ++ y)) := rfl
    rw [h1, if_neg (by simp [h0])]
    rw [ih y (fun i hi => by
      have h2 := h (i + 1) (by simp only [List.length_cons]; omega)
      rwa [List.cons_append, List.drop_succ_cons] at h2)]
    simp

/-- C10: `replace_image_urls` replaces, for a URL captured from a markdown
image reference, every (leftmost, non-overlapping) occurrence of that URL
substring anywhere in the document — also occurrences outside image
references — with the derived local name (last path segment plus
`.png`). -/
theorem replace_image_urls_all_occurrences
    (x y z u : Str) (hu : u ≠ [])
    (hurls : findImageUrls (x ++ (u ++ (y ++ (u ++ z)))) = [u])
    (hx : ∀ i : Nat, i < x.length →
      u.isPrefixOf ((x ++ (u ++ (y ++ (u ++ z)))).drop i) = false)
    (hy : ∀ i : Nat, i < y.length →
      u.isPrefixOf ((y ++ (u ++ z)).drop i) = false)
    (hz : ∀ i : Nat, i ≤ z.length → u.isPrefixOf (z.drop i) = false) :
    replace_image_urls (x ++ (u ++ (y ++ (u ++ z))))
      = x ++ ((lastSeg u ++ ".png".toList) ++
          (y ++ ((lastSeg u ++ ".png".toList) ++ z))) := by
  have hz' : ∀ i : Nat, u.isPrefixOf (z.drop i) = false := by
    intro i
    by_cases hi : i ≤ z.length
    · exact hz i hi
    · have hnil : z.drop i = [] := List.drop_eq_nil_of_le (by omega)
      rw [hnil]
      obtain ⟨a, u', rfl⟩ : ∃ a u', u = a :: u' := by
        cases u with
        | nil => exact absurd rfl hu
        | cons a u' => exact ⟨a, u', rfl⟩
      rfl
  have hrepl : pyReplace u (lastSeg u ++ ".png".toList)
        (x ++ (u ++ (y ++ (u ++ z))))
      = replaceGo u (lastSeg u ++ ".png".toList) 0
        (x ++ (u ++ (y ++ (u ++ z)))) := by
    simp [pyReplace, hu]
  unfold replace_image_urls
  rw [hurls]
  simp only [List.foldl_cons, List.foldl_nil]
  rw [hrepl,
    replaceGo_leftmost u (lastSeg u ++ ".png".toList) hu x (y ++ (u ++ z)) hx,
    replaceGo_leftmost u (lastSeg u ++ ".png".toList) hu y z hy,
    replaceGo_no_occ_zero u (lastSeg u ++ ".png".toList) z hz']
  simp [List.append_assoc]

theorem replace_image_urls_all_occurrences_witness :
    findImageUrls ("![a](".toList ++ ("http://h/b.png".toList ++
      (") see ".toList ++ ("http://h/b.png".toList ++ " end".toList))))
      = ["http://h/b.png".toList]
    ∧ replace_image_urls ("![a](".toList ++ ("http://h/b.png".toList ++
        (") see ".toList ++ ("http://h/b.png".toList ++ " end".toList))))
      = "![a](".toList ++
          ((lastSeg "http://h/b.png".toList ++ ".png".toList) ++
            (") see ".toList ++
              ((lastSeg "http://h/b.png".toList ++ ".png".toList) ++
                " end".toList))) :=
  ⟨rfl, replace_image_urls_all_occurrences "![a](".toList ") see ".toList
    " end".toList "http://h/b.png".toList (by decide) rfl (by decide)
    (by decide) (by decide)⟩
